import Mathlib

/-!
Verification development for the Magic Canvas editor.

The definitions below are a shallow embedding of the TypeScript sources:
  * the layer data model (src/types.ts),
  * the useHistory undo/redo hook (src/App.tsx, lines 12-49),
  * the global keydown handler (src/App.tsx, lines 136-152),
  * getDescendantIds (src/App.tsx, lines 106-116; the LayersPanel copy at
    src/components/LayersPanel.tsx lines 136-149 performs the same DFS and
    produces the same list),
  * handleReorderAndReparentLayers (src/App.tsx, lines 532-567),
  * handleGroupSelection / handleUngroupSelection (src/App.tsx, lines 577-635),
  * handleRemoveBackground (src/App.tsx, lines 309-347),
  * calculateFontSizeFromHeight and the onResizeEnd commit path
    (src/components/CanvasArea.tsx).

Conventions of the embedding:
  * JavaScript numbers are modelled as rationals; every arithmetic fact used
    here is exact in IEEE-754 double precision as well (in particular
    60 / 1.2 evaluates to exactly 50.0 in doubles).
  * The three-variant discriminated union Layer from src/types.ts is
    modelled as one flat record tagged with a kind field; absent optional
    fields (such as a missing parentId) are Option values, and object spread
    is a structure update.
  * Recursion that JavaScript performs without a termination guard
    (getDescendantIds) is given an explicit fuel parameter bounding the
    recursion depth; fuel equal to the number of layers is enough for every
    acyclic store, and fuel-sensitivity of the result exhibits the
    non-termination of the unguarded original.
  * Array.prototype.splice index clamping (negative indices count from the
    end, overlarge indices clamp to the length) is modelled exactly by
    jsSpliceInsert / jsSpliceRemove1, and Array.prototype.findIndex's -1
    result by findIdxInt.
  * The Map built with new Map(prev.map(l => [l.id, l])) keeps the last
    entry for a duplicated key, so mapGet searches the reversed list.
-/

/-- The `type` discriminant of the Layer union in src/types.ts. -/
inductive LayerKind where
  | image
  | text
  | group
deriving DecidableEq, Repr

/-- Flat-record model of the Layer union from src/types.ts.  Every field of
the three variants is present; fields a variant does not use are inert.
Defaults mirror the values used by handleAddText in src/App.tsx. -/
structure Layer where
  id : String
  kind : LayerKind
  name : String := ""
  visible : Bool := true
  parentId : Option String := none
  x : ℚ := 0
  y : ℚ := 0
  width : ℚ := 0
  height : ℚ := 0
  rotation : ℚ := 0
  src : String := ""
  mimeType : String := ""
  content : String := ""
  fontSize : ℚ := 40
  color : String := "#000000"
  fontWeight : String := "normal"
  fontStyle : String := "normal"
  textDecoration : String := "none"
  align : String := "left"
  shadowEnabled : Bool := false
  shadowColor : String := "#000000"
  shadowBlur : ℚ := 5
  shadowOffsetX : ℚ := 5
  shadowOffsetY : ℚ := 5
  outlineEnabled : Bool := false
  outlineColor : String := "#ffffff"
  outlineWidth : ℚ := 2
  fillType : String := "solid"
  gradientColors : String × String := ("#ff0000", "#0000ff")
  gradientDirection : String := "to right"
  expanded : Bool := false
deriving DecidableEq, Repr

/-- Shorthand for a top-level image layer (used by concrete test stores). -/
def mkImage (id : String) (pid : Option String := none) : Layer :=
  { id := id, kind := .image, parentId := pid }

/-- Shorthand for a group layer (used by concrete test stores). -/
def mkGroupLayer (id : String) (pid : Option String := none) : Layer :=
  { id := id, kind := .group, parentId := pid, expanded := true }

/-! ### The useHistory hook (src/App.tsx, lines 12-49)

The hook state is the history array plus currentIndex.  The index is an
integer because the faulty redo can drive it to -1; history[-1] is
undefined in JavaScript, which stateOf models as none. -/

/-- State of the useHistory hook: the snapshot array and the pointer. -/
structure History (T : Type) where
  history : List T
  currentIndex : Int
deriving DecidableEq, Repr

/-- history[currentIndex]: undefined (none) when the pointer is outside
the array, exactly as JavaScript indexing behaves. -/
def History.stateOf {T : Type} (h : History T) : Option T :=
  if h.currentIndex < 0 then none else h.history[h.currentIndex.toNat]?

/-- The setState callback (src/App.tsx, lines 18-31).  The JSON.stringify
comparison is deep value equality, modelled by decidable equality; the
functional form of the action resolves against the current state before
this point (lines 19-21), so the committed value is taken as an argument.
history.slice(0, currentIndex + 1) is the take, the push is the append. -/
def History.setState {T : Type} [DecidableEq T] (h : History T) (newState : T) : History T :=
  if h.stateOf = some newState then h
  else
    let newHistory := h.history.take (h.currentIndex + 1).toNat ++ [newState]
    { history := newHistory, currentIndex := (newHistory.length : Int) - 1 }

/-- undo (src/App.tsx, lines 33-37). -/
def History.undo {T : Type} (h : History T) : History T :=
  if 0 < h.currentIndex then { h with currentIndex := h.currentIndex - 1 } else h

/-- redo (src/App.tsx, lines 39-43).  Note that the source decrements
currentIndex inside the guard; this embedding reproduces that faithfully. -/
def History.redo {T : Type} (h : History T) : History T :=
  if h.currentIndex < (h.history.length : Int) - 1 then
    { h with currentIndex := h.currentIndex - 1 }
  else h

/-- canUndo (src/App.tsx, line 45). -/
def History.canUndo {T : Type} (h : History T) : Bool :=
  0 < h.currentIndex

/-- canRedo (src/App.tsx, line 46). -/
def History.canRedo {T : Type} (h : History T) : Bool :=
  h.currentIndex < (h.history.length : Int) - 1

/-! ### The global keydown handler (src/App.tsx, lines 136-152) -/

/-- The fields of the browser KeyboardEvent read by handleKeyDown. -/
structure KeyEvent where
  key : String
  ctrlKey : Bool := false
  metaKey : Bool := false
  shiftKey : Bool := false
  keyRepeat : Bool := false
deriving DecidableEq, Repr

/-- The fields of document.activeElement read by handleKeyDown; none models
a null activeElement. -/
structure ActiveElement where
  tagName : String
  isContentEditable : Bool := false
deriving DecidableEq, Repr

/-- The isTyping test (src/App.tsx, lines 141-146). -/
def isTypingIn (a : Option ActiveElement) : Bool :=
  match a with
  | none => false
  | some el => el.tagName == "INPUT" || el.tagName == "TEXTAREA" || el.isContentEditable

/-- Which side-effecting calls one run of handleKeyDown makes. -/
structure KeyActions where
  firesUndo : Bool
  firesRedo : Bool
  firesDelete : Bool
  setsShiftPressed : Bool
deriving DecidableEq, Repr

/-- handleKeyDown (src/App.tsx, lines 136-152): the undo and redo branches
are evaluated before isTyping is computed and do not consult it; only the
Delete branch checks isTyping. -/
def handleKeyDown (e : KeyEvent) (activeElement : Option ActiveElement) : KeyActions :=
  { setsShiftPressed := e.key == "Shift" && !e.keyRepeat
    firesUndo := (e.metaKey || e.ctrlKey) && e.key == "z" && !e.shiftKey
    firesRedo := (e.metaKey || e.ctrlKey) && e.key == "z" && e.shiftKey
    firesDelete := e.key == "Delete" && !(isTypingIn activeElement) }

/-! ### getDescendantIds (src/App.tsx, lines 106-116)

The source recursion has no visited set: for each direct child it pushes
the child id and recurses whenever the child is a group.  The fuel
parameter bounds the recursion depth; the original code corresponds to
unlimited fuel, which exists only when the parent relation is acyclic. -/

/-- Depth-bounded embedding of getDescendantIds. -/
def getDescendantIdsF : Nat → List Layer → String → List String
  | 0, _, _ => []
  | fuel + 1, layers, layerId =>
    ((layers.filter (fun l => l.parentId == some layerId)).map
      (fun child =>
        child.id :: (if child.kind == .group then getDescendantIdsF fuel layers child.id else []))).flatten

/-- The parent-child edge relation underlying getDescendantIds: cid names a
layer of the store whose parentId is pid. -/
def ChildOf (layers : List Layer) (pid cid : String) : Prop :=
  ∃ l ∈ layers, l.id = cid ∧ l.parentId = some pid

/-! ### JavaScript array-operation helpers -/

/-- Array.prototype.findIndex: the index of the first match, -1 if none. -/
def findIdxInt {α : Type} (p : α → Bool) (l : List α) : Int :=
  if l.findIdx p < l.length then (l.findIdx p : Int) else -1

/-- splice(start, 0, x): insert at start, where a negative start counts
from the end (clamped at 0) and an overlarge start clamps to the length. -/
def jsSpliceInsert {α : Type} (l : List α) (start : Int) (x : α) : List α :=
  let s : Nat := if start < 0 then (max ((l.length : Int) + start) 0).toNat
                 else (min start (l.length : Int)).toNat
  l.insertIdx s x

/-- splice(start, 1): delete one element at start, with the same index
clamping as jsSpliceInsert (deleting at the length removes nothing). -/
def jsSpliceRemove1 {α : Type} (l : List α) (start : Int) : List α :=
  let s : Nat := if start < 0 then (max ((l.length : Int) + start) 0).toNat
                 else (min start (l.length : Int)).toNat
  l.eraseIdx s

/-- Array.prototype.sort with the comparator (a, b) => b - a: a stable
descending sort (sort is stable per the ECMAScript specification; any
stable descending sort computes the same list). -/
def sortDescInt (l : List Int) : List Int :=
  l.insertionSort (fun a b => b ≤ a)

/-- Lookup in new Map(prev.map(l => [l.id, l])): with a duplicated id the
later entry overwrites the earlier one, so search the reversed list. -/
def mapGet (layers : List Layer) (key : String) : Option Layer :=
  layers.reverse.find? (fun l => l.id == key)

/-! ### handleReorderAndReparentLayers (src/App.tsx, lines 532-567) -/

/-- The position argument of a drop. -/
inductive DropPosition where
  | before
  | after
  | inside
deriving DecidableEq, Repr

/-- handleReorderAndReparentLayers (src/App.tsx, lines 532-567).  The
descendant check of line 540 runs the unguarded recursion; fuel equal to
the store size covers every acyclic store. -/
def handleReorderAndReparentLayers (prev : List Layer) (dragId dropId : String)
    (position : DropPosition) : List Layer :=
  match mapGet prev dragId, mapGet prev dropId with
  | some draggedLayerOriginal, some dropLayer =>
    if dropLayer.parentId = some dragId ∨ dropId ∈ getDescendantIdsF prev.length prev dragId then
      prev
    else
      let newLayers := prev.filter (fun l => l.id != dragId)
      match newLayers.findIdx? (fun l => l.id == dropId) with
      | none => prev
      | some finalDropIndex =>
        match position with
        | .inside =>
          let draggedLayer := { draggedLayerOriginal with parentId := some dropLayer.id }
          let children := newLayers.filter (fun l => l.parentId == some dropLayer.id)
          match children.getLast? with
          | some lastChild =>
            let lastChildIndex := newLayers.findIdx (fun l => l.id == lastChild.id)
            jsSpliceInsert newLayers ((lastChildIndex : Int) + 1) draggedLayer
          | none =>
            jsSpliceInsert newLayers ((finalDropIndex : Int) + 1) draggedLayer
        | _ =>
          let draggedLayer := { draggedLayerOriginal with parentId := dropLayer.parentId }
          let insertionIndex : Int :=
            if position = .before then (finalDropIndex : Int) else (finalDropIndex : Int) + 1
          jsSpliceInsert newLayers insertionIndex draggedLayer
  | _, _ => prev

/-! ### handleGroupSelection (src/App.tsx, lines 577-610) -/

/-- The freshly created group object (src/App.tsx, lines 586-592). -/
def mkNewGroup (newGroupId : String) : Layer :=
  { id := newGroupId, kind := .group, name := "New Group", visible := true, expanded := true }

/-- handleGroupSelection (src/App.tsx, lines 577-610).  An empty selection
returns immediately; the new group id (group-Date.now() in the source) is a
parameter.  Result: the new layer store and the new selection. -/
def handleGroupSelection (prevLayers : List Layer) (selectedIds : List String)
    (newGroupId : String) : List Layer × List String :=
  match selectedIds with
  | [] => (prevLayers, selectedIds)
  | sel0 :: _ =>
    let topItemIndex : Int := findIdxInt (fun l => l.id == sel0) prevLayers
    let newGroup : Layer := mkNewGroup newGroupId
    let selectedLayers :=
      selectedIds.filterMap (fun id => prevLayers.find? (fun l => l.id == id))
    let selectedIndices :=
      sortDescInt ((selectedIds.map (fun id => findIdxInt (fun l => l.id == id) prevLayers)).filter
        (fun i => i != -1))
    let afterRemove := selectedIndices.foldl (fun acc i => jsSpliceRemove1 acc i) prevLayers
    let finalTopIndex : Int :=
      if topItemIndex > (afterRemove.length : Int) then (afterRemove.length : Int) else topItemIndex
    let withGroup := jsSpliceInsert afterRemove finalTopIndex newGroup
    let withChildren := selectedLayers.enum.foldl
      (fun acc p =>
        jsSpliceInsert acc (finalTopIndex + 1 + (p.1 : Int)) { p.2 with parentId := some newGroup.id })
      withGroup
    (withChildren, [newGroupId])

/-! ### handleUngroupSelection (src/App.tsx, lines 612-635) -/

/-- One iteration of the groupsToUngroup.forEach loop: release the direct
children of groupId (dropping their parentId field, as the destructuring
on line 625 does), record their ids in selection order, then filter the
group itself out. -/
def ungroupStep (acc : List Layer × List String) (groupId : String) : List Layer × List String :=
  let cur := acc.1
  let sel := acc.2
  let released := (cur.filter (fun l => l.parentId == some groupId)).map (fun l => l.id)
  let mapped := cur.map (fun l => if l.parentId = some groupId then { l with parentId := none } else l)
  (mapped.filter (fun l => l.id != groupId), sel ++ released)

/-- handleUngroupSelection (src/App.tsx, lines 612-635).  Result: the new
layer store and the new selection; when no selected id names a group the
handler returns before calling either setter. -/
def handleUngroupSelection (layers : List Layer) (selectedIds : List String) :
    List Layer × List String :=
  let groupsToUngroup := selectedIds.filter (fun id =>
    match layers.find? (fun l => l.id == id) with
    | some l => l.kind == .group
    | none => false)
  if groupsToUngroup = [] then (layers, selectedIds)
  else groupsToUngroup.foldl ungroupStep (layers, [])

/-! ### handleRemoveBackground (src/App.tsx, lines 309-347) -/

/-- Chat message roles (src/types.ts). -/
inductive ChatRole where
  | user
  | assistant
  | system
deriving DecidableEq, Repr

/-- ChatMessage (src/types.ts). -/
structure ChatMessage where
  id : String
  role : ChatRole
  content : String
  images : List String := []
deriving DecidableEq, Repr

/-- The slice of App state handleRemoveBackground touches or reads. -/
structure AppState where
  layers : List Layer
  selectedIds : List String
  messages : List ChatMessage
  isProcessing : Bool := false
  processingMessage : String := ""
deriving DecidableEq, Repr

/-- handleRemoveBackground (src/App.tsx, lines 309-347).  The awaited
external call is a parameter: ok carries the result image, error carries
the message string the catch block would extract from the thrown error.
The generated message id (msg-Date.now()) is a parameter.  The finally
block clears isProcessing and processingMessage on both paths; the handler
never rethrows, which the embedding reflects by being a total function
into AppState.  setSelectedIds is never called, so selectedIds is carried
through untouched. -/
def handleRemoveBackground (st : AppState) (callResult : Except String String)
    (msgId : String) : AppState :=
  match st.selectedIds with
  | [sid] =>
    match st.layers.find? (fun l => l.id == sid && l.kind == .image) with
    | none => st
    | some selectedElement =>
      let busy : AppState := { st with isProcessing := true, processingMessage := "Removing background..." }
      match callResult with
      | .ok resultImage =>
        let updatedElement := { selectedElement with src := resultImage, mimeType := "image/png" }
        let okMsg : ChatMessage := { id := msgId, role := .system
                                     content := "Successfully removed background for " ++ selectedElement.name ++ "." }
        let afterTry : AppState := { busy with
          layers := busy.layers.map (fun l => if l.id = selectedElement.id then updatedElement else l)
          messages := busy.messages ++ [okMsg] }
        { afterTry with isProcessing := false, processingMessage := "" }
      | .error errText =>
        let afterCatch : AppState := { busy with
          messages := busy.messages ++ [{ id := msgId, role := .system, content := errText }] }
        { afterCatch with isProcessing := false, processingMessage := "" }
  | _ => st

/-! ### Text resize commit (src/components/CanvasArea.tsx) -/

/-- calculateFontSizeFromHeight (CanvasArea.tsx): Math.max(1, height / 1.2).
The 1.2 literal is FONT_SIZE_TO_HEIGHT_RATIO in the source. -/
def calculateFontSizeFromHeight (height : ℚ) : ℚ :=
  max 1 (height / (1.2 : ℚ))

/-- The onResizeEnd commit path (CanvasArea.tsx): the committed props are
the final width, height, x and y, plus the recomputed fontSize when the
element is a text element; handleElementUpdate merges them into the layer
(groups are never resize targets and are left untouched, matching the
image-or-text guard in handleElementUpdate). -/
def onResizeEndCommit (el : Layer) (w h x y : ℚ) : Layer :=
  if el.kind = .group then el
  else if el.kind = .text then
    { el with width := w, height := h, x := x, y := y
              fontSize := calculateFontSizeFromHeight h }
  else
    { el with width := w, height := h, x := x, y := y }

/-! ### Concrete stores used by the closed test theorems -/

/-- A store with a single self-parented image layer. -/
def selfParentStore : List Layer := [mkImage "x" (some "x")]

/-- A store whose two groups are each other's parent: a parent-chain cycle. -/
def twoCycleStore : List Layer := [mkGroupLayer "a" (some "b"), mkGroupLayer "b" (some "a")]

/-- A group with one image child, plus one stray image. -/
def groupedStore : List Layer := [mkGroupLayer "g1", mkImage "i1" (some "g1"), mkImage "a"]

/-- A sample text layer. -/
def sampleText : Layer := { id := "t", kind := .text }

/-- A sample app state with one selected image layer. -/
def sampleAppState : AppState :=
  { layers := [mkImage "a"], selectedIds := ["a"], messages := [] }

/-! ## Theorems -/

/-! ### C1: undo/redo round trip -/

/-- C1: the claim that undo followed immediately by redo restores the state
current before the undo is FALSE on this code: redo decrements currentIndex
(src/App.tsx line 41) instead of incrementing it.  On the two-snapshot
history with the pointer at 1, undo moves to 0 and redo then moves to -1,
where the state is undefined rather than the pre-undo snapshot. -/
theorem redo_undo_roundTrip_fails :
    (History.canUndo (⟨[0, 1], 1⟩ : History Nat) = true) ∧
    (History.stateOf (⟨[0, 1], 1⟩ : History Nat) = some 1) ∧
    (History.stateOf (History.redo (History.undo (⟨[0, 1], 1⟩ : History Nat))) = none) ∧
    (History.redo (History.undo (⟨[0, 1], 1⟩ : History Nat))).currentIndex = -1 := by
  decide

/-! ### C2: commit semantics -/

/-- C2: with the pointer inside the array, setState is the identity when the
committed value is deep-value-equal to the current state; otherwise it
truncates the history to the pointer, appends the new state, and advances
the pointer onto the appended state. -/
theorem setState_commit_spec {T : Type} [DecidableEq T] (h : History T) (s : T)
    (h0 : 0 ≤ h.currentIndex) (h1 : h.currentIndex < (h.history.length : Int)) :
    (h.stateOf = some s → h.setState s = h) ∧
    (h.stateOf ≠ some s →
      (h.setState s).history = h.history.take (h.currentIndex.toNat + 1) ++ [s] ∧
      (h.setState s).currentIndex = h.currentIndex + 1 ∧
      (h.setState s).stateOf = some s) := by
  constructor
  · intro heq
    unfold History.setState
    rw [if_pos heq]
  · intro hne
    have htoNat : (h.currentIndex + 1).toNat = h.currentIndex.toNat + 1 := by omega
    have htake : (h.history.take (h.currentIndex.toNat + 1)).length = h.currentIndex.toNat + 1 := by
      rw [List.length_take]
      omega
    have hred : h.setState s =
        { history := h.history.take (h.currentIndex.toNat + 1) ++ [s]
          currentIndex := ((h.history.take (h.currentIndex.toNat + 1) ++ [s]).length : Int) - 1 } := by
      unfold History.setState
      rw [if_neg hne, htoNat]
    have hlen2 : ((h.history.take (h.currentIndex.toNat + 1) ++ [s]).length : Int)
        = (h.currentIndex.toNat : Int) + 2 := by
      rw [List.length_append, htake, List.length_singleton]
      push_cast
      ring
    refine ⟨by rw [hred], ?_, ?_⟩
    · rw [hred]
      show ((h.history.take (h.currentIndex.toNat + 1) ++ [s]).length : Int) - 1 = h.currentIndex + 1
      rw [hlen2]
      omega
    · rw [hred]
      unfold History.stateOf
      show (if (((h.history.take (h.currentIndex.toNat + 1) ++ [s]).length : Int) - 1 < 0) then none
        else (h.history.take (h.currentIndex.toNat + 1) ++ [s])[(((h.history.take (h.currentIndex.toNat + 1) ++ [s]).length : Int) - 1).toNat]?) = some s
      rw [hlen2, if_neg (by omega)]
      rw [show (((h.currentIndex.toNat : Int) + 2) - 1).toNat = h.currentIndex.toNat + 1 by omega]
      rw [List.getElem?_append_right (by omega)]
      simp [htake]

/-- C2 witness: the two branches at a concrete one-snapshot history. -/
theorem setState_commit_spec_witness :
    ((History.stateOf (⟨[0], 0⟩ : History Nat) = some 0 →
        History.setState (⟨[0], 0⟩ : History Nat) 0 = ⟨[0], 0⟩) ∧
      (History.stateOf (⟨[0], 0⟩ : History Nat) ≠ some 5 →
        (History.setState (⟨[0], 0⟩ : History Nat) 5).history = [0].take 1 ++ [5] ∧
        (History.setState (⟨[0], 0⟩ : History Nat) 5).currentIndex = 0 + 1 ∧
        (History.setState (⟨[0], 0⟩ : History Nat) 5).stateOf = some 5)) ∧
    (History.stateOf (⟨[0], 0⟩ : History Nat) ≠ some 5) := by
  refine ⟨?_, by decide⟩
  have := setState_commit_spec (⟨[0], 0⟩ : History Nat) 5 (by decide) (by decide)
  have h0 := setState_commit_spec (⟨[0], 0⟩ : History Nat) 0 (by decide) (by decide)
  exact ⟨h0.1, this.2⟩

/-! ### C3: getDescendantIds, self-exclusion and termination -/

/-- C3 counterexample: the claim fails as stated.  A self-parented layer is
returned among its own descendants, and on the two-group parent cycle the
result keeps growing with the permitted recursion depth (length equal to
the fuel), so the unguarded recursion of the source never terminates
there. -/
theorem getDescendantIds_guard_counterexample :
    ("x" ∈ getDescendantIdsF 1 selfParentStore "x") ∧
    (getDescendantIdsF 5 twoCycleStore "a").length = 5 ∧
    (getDescendantIdsF 6 twoCycleStore "a").length = 6 := by
  decide

/-- Every id produced by the bounded DFS is reachable from the root along
parent-child edges of the store. -/
theorem mem_getDescendantIdsF_transGen {fuel : Nat} {layers : List Layer} {root x : String}
    (hx : x ∈ getDescendantIdsF fuel layers root) :
    Relation.TransGen (ChildOf layers) root x := by
  induction fuel generalizing root with
  | zero => simp [getDescendantIdsF] at hx
  | succ n ih =>
    simp only [getDescendantIdsF, List.mem_flatten, List.mem_map] at hx
    obtain ⟨lst, ⟨child, hchild, rfl⟩, hxl⟩ := hx
    rw [List.mem_filter] at hchild
    have hedge : ChildOf layers root child.id :=
      ⟨child, hchild.1, rfl, by simpa using hchild.2⟩
    rcases List.mem_cons.mp hxl with h | h
    · exact h ▸ Relation.TransGen.single hedge
    · by_cases hg : (child.kind == LayerKind.group) = true
      · rw [if_pos hg] at h
        exact Relation.TransGen.head hedge (ih h)
      · rw [if_neg hg] at h
        simp at h

/-- C3 amended: when layerId is not reachable from itself along the
parent-child relation (in particular when no layer is its own parent and no
parent chain is cyclic through layerId), getDescendantIds never includes
layerId itself, at every recursion depth. -/
theorem getDescendantIds_excludes_self_of_acyclic (layers : List Layer) (layerId : String)
    (hacyc : ¬ Relation.TransGen (ChildOf layers) layerId layerId) :
    ∀ fuel, layerId ∉ getDescendantIdsF fuel layers layerId := by
  intro fuel hmem
  exact hacyc (mem_getDescendantIdsF_transGen hmem)

/-- C3 witness: the amended theorem applied to a concrete acyclic store. -/
theorem getDescendantIds_excludes_self_witness :
    (¬ Relation.TransGen (ChildOf groupedStore) "a" "a") ∧
    "a" ∉ getDescendantIdsF 3 groupedStore "a" := by
  have hnc : ¬ Relation.TransGen (ChildOf groupedStore) "a" "a" := by
    have hstep : ∀ c : String, ¬ ChildOf groupedStore c "a" := by
      intro c hc
      obtain ⟨l, hl, hid, hpar⟩ := hc
      simp only [groupedStore, List.mem_cons, List.not_mem_nil, or_false] at hl
      rcases hl with rfl | rfl | rfl
      · exact absurd hid (by decide)
      · exact absurd hid (by decide)
      · exact Option.noConfusion hpar
    intro h
    cases h with
    | single hedge => exact hstep _ hedge
    | tail _ hedge => exact hstep _ hedge
  exact ⟨hnc, getDescendantIds_excludes_self_of_acyclic groupedStore "a" hnc 3⟩

/-! ### C4: keyboard shortcut suppression while typing -/

/-- C4 counterexample: with focus in an INPUT element (isTyping holds),
Ctrl+z still fires undo and Ctrl+Shift+z (key reported lowercase) still
fires redo; the isTyping guard of the source protects only Delete. -/
theorem keyboard_undo_fires_while_typing :
    isTypingIn (some ⟨"INPUT", false⟩) = true ∧
    (handleKeyDown ⟨"z", true, false, false, false⟩ (some ⟨"INPUT", false⟩)).firesUndo = true ∧
    (handleKeyDown ⟨"z", true, false, true, false⟩ (some ⟨"TEXTAREA", false⟩)).firesRedo = true := by
  decide

/-- C4 amended: while focus is in a text-editing field only the Delete
action is suppressed; the undo and redo branches do not consult the active
element at all, so they fire exactly as they would with any other focus. -/
theorem keyboard_typing_suppresses_only_delete (e : KeyEvent) (a b : Option ActiveElement)
    (ht : isTypingIn a = true) :
    (handleKeyDown e a).firesDelete = false ∧
    (handleKeyDown e a).firesUndo = (handleKeyDown e b).firesUndo ∧
    (handleKeyDown e a).firesRedo = (handleKeyDown e b).firesRedo := by
  simp [handleKeyDown, ht]

/-- C4 witness: the amended theorem at the Delete key inside an INPUT. -/
theorem keyboard_typing_suppresses_only_delete_witness :
    (handleKeyDown ⟨"Delete", false, false, false, false⟩ (some ⟨"INPUT", false⟩)).firesDelete = false ∧
    (handleKeyDown ⟨"Delete", false, false, false, false⟩ (some ⟨"INPUT", false⟩)).firesUndo
      = (handleKeyDown ⟨"Delete", false, false, false, false⟩ none).firesUndo ∧
    (handleKeyDown ⟨"Delete", false, false, false, false⟩ (some ⟨"INPUT", false⟩)).firesRedo
      = (handleKeyDown ⟨"Delete", false, false, false, false⟩ none).firesRedo :=
  keyboard_typing_suppresses_only_delete ⟨"Delete", false, false, false, false⟩
    (some ⟨"INPUT", false⟩) none rfl

/-! ### C5: grouping two top-level images -/

/-- C5: grouping the store of two top-level images with both selected
produces exactly the group followed by the two images reparented to it, in
order, and selects exactly the new group. -/
theorem group_two_images_scenario :
    handleGroupSelection [mkImage "a", mkImage "b"] ["a", "b"] "g1"
      = ([mkNewGroup "g1",
          { mkImage "a" with parentId := some "g1" },
          { mkImage "b" with parentId := some "g1" }], ["g1"]) := by
  decide

/-! ### C8: committed font size after a text resize -/

/-- C8: for a text element the committed font size after a resize ending at
height h is max 1 (h / 1.2); at height 60 it is exactly 50 (60 / 1.2 is
also exactly 50.0 in IEEE-754 doubles, so the rational model is exact
here).  Width, x and y do not influence it. -/
theorem resize_commit_fontSize (el : Layer) (w h x y : ℚ) (ht : el.kind = .text) :
    (onResizeEndCommit el w h x y).fontSize = max 1 (h / (1.2 : ℚ)) ∧
    (onResizeEndCommit el w 60 x y).fontSize = 50 := by
  have hng : el.kind ≠ .group := by rw [ht]; intro hc; cases hc
  constructor
  · simp [onResizeEndCommit, ht, hng, calculateFontSizeFromHeight]
  · simp [onResizeEndCommit, ht, hng, calculateFontSizeFromHeight]
    norm_num

/-- C8 witness: the committed font size at height 60 on a sample text
element is exactly 50. -/
theorem resize_commit_fontSize_witness :
    (onResizeEndCommit sampleText 250 60 0 0).fontSize = max 1 ((60 : ℚ) / (1.2 : ℚ)) ∧
    (onResizeEndCommit sampleText 250 60 0 0).fontSize = 50 :=
  resize_commit_fontSize sampleText 250 60 0 0 rfl

/-! ### C7: rejected reorder drops leave the store unchanged -/

/-- C7: whenever the drop target's current parent is the dragged layer, or
the drop target appears among the dragged layer's descendants (as computed
by the store-sized-fuel DFS the handler runs), the reorder is rejected and
the store is returned unchanged, whatever the requested position is. -/
theorem reorder_rejects_selfParent_or_descendant (prev : List Layer) (dragId dropId : String)
    (position : DropPosition) (dl : Layer)
    (hdrop : mapGet prev dropId = some dl)
    (hrej : dl.parentId = some dragId ∨ dropId ∈ getDescendantIdsF prev.length prev dragId) :
    handleReorderAndReparentLayers prev dragId dropId position = prev := by
  cases hdrag : mapGet prev dragId with
  | none => simp only [handleReorderAndReparentLayers, hdrag, hdrop]
  | some d =>
    simp only [handleReorderAndReparentLayers, hdrag, hdrop]
    rw [if_pos hrej]

/-- C7 witness: dropping the group g1 inside its own child i1 is rejected
on the concrete grouped store. -/
theorem reorder_rejects_witness :
    mapGet groupedStore "i1" = some (mkImage "i1" (some "g1")) ∧
    (mkImage "i1" (some "g1")).parentId = some "g1" ∧
    handleReorderAndReparentLayers groupedStore "g1" "i1" DropPosition.inside = groupedStore := by
  refine ⟨by decide, by decide, ?_⟩
  exact reorder_rejects_selfParent_or_descendant groupedStore "g1" "i1" DropPosition.inside
    (mkImage "i1" (some "g1")) (by decide) (Or.inl (by decide))

/-! ### C9: removeBackground failure path -/

/-- C9: when the external background-removal call fails, the layer store
and the selection are exactly as before, exactly one system-role message
(carrying the error text) is appended to the transcript, and the busy flag
and its caption are cleared; the busy flag is also cleared on the success
path.  The handler is a total function into AppState, so no error escapes
past the catch block. -/
theorem removeBackground_failure_spec (st : AppState) (sid : String) (sel : Layer)
    (hsel : st.selectedIds = [sid])
    (hfind : st.layers.find? (fun l => l.id == sid && l.kind == LayerKind.image) = some sel)
    (e msgId : String) :
    (handleRemoveBackground st (.error e) msgId).layers = st.layers ∧
    (handleRemoveBackground st (.error e) msgId).selectedIds = st.selectedIds ∧
    (handleRemoveBackground st (.error e) msgId).messages
      = st.messages ++ [{ id := msgId, role := .system, content := e, images := [] }] ∧
    (handleRemoveBackground st (.error e) msgId).isProcessing = false ∧
    (handleRemoveBackground st (.error e) msgId).processingMessage = "" ∧
    (∀ img, (handleRemoveBackground st (.ok img) msgId).isProcessing = false) := by
  refine ⟨?_, ?_, ?_, ?_, ?_, ?_⟩ <;>
    simp [handleRemoveBackground, hsel, hfind]

/-- C9 witness: the failure path on the concrete sample state. -/
theorem removeBackground_failure_witness :
    (handleRemoveBackground sampleAppState (.error "boom") "m1").layers = sampleAppState.layers ∧
    (handleRemoveBackground sampleAppState (.error "boom") "m1").selectedIds = sampleAppState.selectedIds ∧
    (handleRemoveBackground sampleAppState (.error "boom") "m1").messages
      = sampleAppState.messages ++ [{ id := "m1", role := .system, content := "boom", images := [] }] ∧
    (handleRemoveBackground sampleAppState (.error "boom") "m1").isProcessing = false ∧
    (handleRemoveBackground sampleAppState (.error "boom") "m1").processingMessage = "" ∧
    (∀ img, (handleRemoveBackground sampleAppState (.ok img) "m1").isProcessing = false) :=
  removeBackground_failure_spec sampleAppState "a" (mkImage "a") rfl (by decide) "boom" "m1"

/-! ### C10: successful reorders preserve the layer multiset -/

/-- Inserting inside the list splits it as take, element, drop. -/
theorem insertIdx_eq_take_cons_drop {α : Type} :
    ∀ (m : Nat) (x : α) (l : List α), m ≤ l.length →
      l.insertIdx m x = l.take m ++ x :: l.drop m := by
  intro m
  induction m with
  | zero =>
    intro x l _
    simp [List.insertIdx_zero]
  | succ n ih =>
    intro x l hm
    cases l with
    | nil => simp at hm
    | cons a t =>
      rw [List.insertIdx_succ_cons, List.take_succ_cons, List.drop_succ_cons, List.cons_append]
      rw [ih x t (by simpa using hm)]

/-- jsSpliceInsert at a nonnegative in-range index is a plain insertIdx. -/
theorem jsSpliceInsert_toNat {α : Type} (l : List α) (i : Int) (x : α)
    (h0 : 0 ≤ i) (h1 : i ≤ (l.length : Int)) :
    jsSpliceInsert l i x = l.insertIdx i.toNat x := by
  simp only [jsSpliceInsert]
  rw [if_neg (by omega)]
  congr 1
  omega

/-- A successful mapGet returns a member carrying the looked-up id. -/
theorem mapGet_mem_id {prev : List Layer} {x : String} {d : Layer}
    (h : mapGet prev x = some d) : d ∈ prev ∧ d.id = x := by
  unfold mapGet at h
  refine ⟨List.mem_reverse.mp (List.mem_of_find?_eq_some h), ?_⟩
  have hp := List.find?_some h
  simpa using hp

/-- In a store with no duplicated ids, filtering for a member's id returns
exactly that member. -/
theorem filter_id_eq_singleton {prev : List Layer} {d : Layer}
    (hnd : (prev.map Layer.id).Nodup) (hd : d ∈ prev) :
    prev.filter (fun l => l.id == d.id) = [d] := by
  induction prev with
  | nil => cases hd
  | cons a t ih =>
    rw [List.map_cons, List.nodup_cons] at hnd
    rcases List.mem_cons.mp hd with rfl | hdt
    · rw [List.filter_cons_of_pos (by simp)]
      have ht : t.filter (fun l => l.id == d.id) = [] := by
        rw [List.filter_eq_nil_iff]
        intro b hb hbeq
        have hbid : b.id = d.id := by simpa using hbeq
        exact hnd.1 (hbid ▸ List.mem_map_of_mem Layer.id hb)
      rw [ht]
    · have hne : (a.id == d.id) = false := by
        rw [beq_eq_false_iff_ne]
        intro hc
        exact hnd.1 (hc ▸ List.mem_map_of_mem Layer.id hdt)
      rw [List.filter_cons_of_neg (by simp [hne])]
      exact ih hnd.2 hdt

/-- Splitting a nodup store at a member's id: the id list is a permutation
of the member's id consed onto the ids of the other layers, in order. -/
theorem map_id_perm_cons_filter {prev : List Layer} {dragId : String} {dragged : Layer}
    (hnd : (prev.map Layer.id).Nodup) (hmem : dragged ∈ prev) (hdid : dragged.id = dragId) :
    (prev.map Layer.id).Perm
      (dragId :: (prev.filter (fun l => l.id != dragId)).map Layer.id) := by
  have hone : prev.filter (fun l => l.id == dragId) = [dragged] := by
    have := filter_id_eq_singleton hnd hmem
    rwa [hdid] at this
  have hbne : (fun (l : Layer) => l.id != dragId) = (fun l => !(l.id == dragId)) := rfl
  have hperm := (List.filter_append_perm (fun l => l.id == dragId) prev).symm
  have := hperm.map Layer.id
  rw [hone] at this
  refine this.trans ?_
  rw [hbne, List.map_append]
  simp [hdid]

/-- Inserting a layer with a fresh id into a list that avoids that id:
the id multiset, the filters for and against that id. -/
theorem insertIdx_id_props (F : List Layer) (d : Layer) (m : Nat) (hm : m ≤ F.length)
    (hid : ∀ l ∈ F, l.id ≠ d.id) :
    ((F.insertIdx m d).map Layer.id).Perm (d.id :: F.map Layer.id) ∧
    (F.insertIdx m d).filter (fun l => l.id != d.id) = F ∧
    (F.insertIdx m d).filter (fun l => l.id == d.id) = [d] := by
  rw [insertIdx_eq_take_cons_drop m d F hm]
  have htk : ∀ l ∈ F.take m, l.id ≠ d.id := fun l hl => hid l (List.mem_of_mem_take hl)
  have hdp : ∀ l ∈ F.drop m, l.id ≠ d.id := fun l hl => hid l (List.mem_of_mem_drop hl)
  refine ⟨?_, ?_, ?_⟩
  · rw [List.map_append, List.map_cons]
    refine List.perm_middle.trans ?_
    rw [← List.map_append, List.take_append_drop]
  · rw [List.filter_append, List.filter_cons_of_neg (by simp)]
    rw [List.filter_eq_self.mpr (fun a ha => by simpa [bne_iff_ne] using htk a ha)]
    rw [List.filter_eq_self.mpr (fun a ha => by simpa [bne_iff_ne] using hdp a ha)]
    exact List.take_append_drop m F
  · rw [List.filter_append, List.filter_cons_of_pos (by simp)]
    rw [List.filter_eq_nil_iff.mpr (fun a ha hc => htk a ha (by simpa using hc))]
    rw [List.filter_eq_nil_iff.mpr (fun a ha hc => hdp a ha (by simpa using hc))]
    rfl

/-- The shape shared by every successful branch of the reorder handler:
inserting the (possibly reparented) dragged layer anywhere into the store
minus the dragged layer preserves the id multiset, leaves the other layers
untouched and in order, and keeps exactly one copy of the dragged id. -/
theorem reorder_core (prev : List Layer) (dragId : String) (dragged d : Layer) (m : Nat)
    (hnd : (prev.map Layer.id).Nodup) (hmem : dragged ∈ prev) (hdid : dragged.id = dragId)
    (hd : d.id = dragId) (hm : m ≤ (prev.filter (fun l => l.id != dragId)).length) :
    (((prev.filter (fun l => l.id != dragId)).insertIdx m d).map Layer.id).Perm
      (prev.map Layer.id) ∧
    ((prev.filter (fun l => l.id != dragId)).insertIdx m d).filter (fun l => l.id != dragId)
      = prev.filter (fun l => l.id != dragId) ∧
    ((prev.filter (fun l => l.id != dragId)).insertIdx m d).filter (fun l => l.id == dragId)
      = [d] := by
  have hid : ∀ l ∈ prev.filter (fun l => l.id != dragId), l.id ≠ d.id := by
    intro l hl
    rw [hd]
    have := (List.mem_filter.mp hl).2
    simpa [bne_iff_ne] using this
  obtain ⟨h1, h2, h3⟩ := insertIdx_id_props (prev.filter (fun l => l.id != dragId)) d m hm hid
  rw [hd] at h1 h2 h3
  exact ⟨h1.trans (map_id_perm_cons_filter hnd hmem hdid).symm, h2, h3⟩

/-- Cast arithmetic helper for splice indices. -/
theorem toNat_cast_add_one (n : Nat) : ((n : Int) + 1).toNat = n + 1 := by
  omega

/-- C10: a reorder call in which both ids resolve and the rejection guard
does not fire keeps exactly the same multiset of layer ids, leaves every
non-dragged layer unchanged and in the same relative order (the store
filtered to the other layers is literally unchanged), and keeps exactly
one copy of the dragged layer, equal to the original in every field except
possibly parentId. -/
theorem reorder_success_preserves (prev : List Layer) (dragId dropId : String)
    (position : DropPosition) (dragged dropL : Layer)
    (hnd : (prev.map Layer.id).Nodup)
    (hdrag : mapGet prev dragId = some dragged)
    (hdrop : mapGet prev dropId = some dropL)
    (hrej : ¬(dropL.parentId = some dragId ∨ dropId ∈ getDescendantIdsF prev.length prev dragId)) :
    ((handleReorderAndReparentLayers prev dragId dropId position).map Layer.id).Perm
      (prev.map Layer.id) ∧
    (handleReorderAndReparentLayers prev dragId dropId position).filter (fun l => l.id != dragId)
      = prev.filter (fun l => l.id != dragId) ∧
    (∃ p, (handleReorderAndReparentLayers prev dragId dropId position).filter
      (fun l => l.id == dragId) = [{ dragged with parentId := p }]) := by
  obtain ⟨hmem, hdid⟩ := mapGet_mem_id hdrag
  rcases hfind : (prev.filter (fun l => l.id != dragId)).findIdx? (fun l => l.id == dropId)
    with _ | k
  · have hres : handleReorderAndReparentLayers prev dragId dropId position = prev := by
      simp only [handleReorderAndReparentLayers, hdrag, hdrop, hfind]
      rw [if_neg hrej]
    rw [hres]
    refine ⟨List.Perm.refl _, rfl, ⟨dragged.parentId, ?_⟩⟩
    have hone := filter_id_eq_singleton hnd hmem
    rw [hdid] at hone
    rw [hone]
  · have hk := (List.findIdx?_eq_some_iff_findIdx_eq.mp hfind).1
    have hshape : ∃ (m : Nat) (p : Option String),
        m ≤ (prev.filter (fun l => l.id != dragId)).length ∧
        handleReorderAndReparentLayers prev dragId dropId position
          = (prev.filter (fun l => l.id != dragId)).insertIdx m { dragged with parentId := p } := by
      cases position with
      | inside =>
        rcases hlast : ((prev.filter (fun l => l.id != dragId)).filter
            (fun l => l.parentId == some dropL.id)).getLast? with _ | lastChild
        · refine ⟨k + 1, some dropL.id, by omega, ?_⟩
          simp only [handleReorderAndReparentLayers, hdrag, hdrop, hfind, hlast]
          rw [if_neg hrej]
          rw [jsSpliceInsert_toNat _ _ _ (by omega) (by omega), toNat_cast_add_one]
        · have hlmem : lastChild ∈ prev.filter (fun l => l.id != dragId) := by
            rcases List.getLast?_eq_some_iff.mp hlast with ⟨ys, hys⟩
            have hmf : lastChild ∈ (prev.filter (fun l => l.id != dragId)).filter
                (fun l => l.parentId == some dropL.id) := by
              rw [hys]
              simp
            exact (List.mem_filter.mp hmf).1
          have hlt : (prev.filter (fun l => l.id != dragId)).findIdx
              (fun l => l.id == lastChild.id) < (prev.filter (fun l => l.id != dragId)).length :=
            List.findIdx_lt_length_of_exists ⟨lastChild, hlmem, by simp⟩
          refine ⟨(prev.filter (fun l => l.id != dragId)).findIdx
            (fun l => l.id == lastChild.id) + 1, some dropL.id, by omega, ?_⟩
          simp only [handleReorderAndReparentLayers, hdrag, hdrop, hfind, hlast]
          rw [if_neg hrej]
          rw [jsSpliceInsert_toNat _ _ _ (by omega) (by omega), toNat_cast_add_one]
      | before =>
        refine ⟨k, dropL.parentId, by omega, ?_⟩
        simp only [handleReorderAndReparentLayers, hdrag, hdrop, hfind]
        rw [if_neg hrej]
        rw [if_pos trivial]
        rw [jsSpliceInsert_toNat _ _ _ (by omega) (by omega), Int.toNat_natCast]
      | after =>
        refine ⟨k + 1, dropL.parentId, by omega, ?_⟩
        simp only [handleReorderAndReparentLayers, hdrag, hdrop, hfind]
        rw [if_neg hrej]
        rw [if_neg (by intro hc; cases hc)]
        rw [jsSpliceInsert_toNat _ _ _ (by omega) (by omega), toNat_cast_add_one]
    obtain ⟨m, p, hm, hres⟩ := hshape
    rw [hres]
    have hd : ({ dragged with parentId := p } : Layer).id = dragId := hdid
    obtain ⟨h1, h2, h3⟩ := reorder_core prev dragId dragged _ m hnd hmem hdid hd hm
    exact ⟨h1, h2, ⟨p, h3⟩⟩

/-- C10 witness: dragging layer c before layer a in a three-image store. -/
theorem reorder_success_preserves_witness :
    ((handleReorderAndReparentLayers [mkImage "a", mkImage "b", mkImage "c"] "c" "a"
        DropPosition.before).map Layer.id).Perm
      ([mkImage "a", mkImage "b", mkImage "c"].map Layer.id) ∧
    (handleReorderAndReparentLayers [mkImage "a", mkImage "b", mkImage "c"] "c" "a"
        DropPosition.before).filter (fun l => l.id != "c")
      = [mkImage "a", mkImage "b", mkImage "c"].filter (fun l => l.id != "c") ∧
    (∃ p, (handleReorderAndReparentLayers [mkImage "a", mkImage "b", mkImage "c"] "c" "a"
        DropPosition.before).filter (fun l => l.id == "c") = [{ mkImage "c" with parentId := p }]) :=
  reorder_success_preserves [mkImage "a", mkImage "b", mkImage "c"] "c" "a" DropPosition.before
    (mkImage "c") (mkImage "a") (by decide) (by decide) (by decide) (by decide)

/-! ### C6: grouping then ungrouping restores the store

The proof decomposes handleGroupSelection into: remove the selected layers
(a fold of splice-removals over the descending-sorted original indices,
shown equal to a filter), insert the new group, then insert the reparented
selected layers right after it; handleUngroupSelection then undoes exactly
these steps.  The helpers below characterise each stage. -/

/-- jsSpliceRemove1 at a nonnegative in-range index is a plain eraseIdx. -/
theorem jsSpliceRemove1_toNat {α : Type} (l : List α) (i : Int)
    (h0 : 0 ≤ i) (h1 : i ≤ (l.length : Int)) :
    jsSpliceRemove1 l i = l.eraseIdx i.toNat := by
  simp only [jsSpliceRemove1]
  rw [if_neg (by omega)]
  congr 1
  omega

/-- Erasing at the index found for a predicate erases the first match. -/
theorem eraseIdx_findIdx_eq_eraseP {α : Type} (p : α → Bool) :
    ∀ (l : List α), l.eraseIdx (l.findIdx p) = l.eraseP p := by
  intro l
  induction l with
  | nil => rfl
  | cons a t ih =>
    rw [List.findIdx_cons]
    cases hp : p a with
    | true =>
      rw [List.eraseP_cons_of_pos hp]
      rfl
    | false =>
      rw [List.eraseP_cons_of_neg (by simp [hp])]
      simpa using ih

/-- Erasing at an index beyond the first match leaves the match's index
unchanged. -/
theorem findIdx_eraseIdx_of_lt {α : Type} (p : α → Bool) :
    ∀ (l : List α) (n : Nat), l.findIdx p < n → (l.eraseIdx n).findIdx p = l.findIdx p := by
  intro l
  induction l with
  | nil => intro n _; rfl
  | cons a t ih =>
    intro n hn
    rw [List.findIdx_cons] at hn ⊢
    cases hp : p a with
    | true =>
      rw [hp] at hn
      simp only [cond_true] at hn ⊢
      cases n with
      | zero => omega
      | succ m =>
        rw [List.eraseIdx_cons_succ, List.findIdx_cons, hp]
        rfl
    | false =>
      rw [hp] at hn
      simp only [cond_false] at hn ⊢
      cases n with
      | zero => omega
      | succ m =>
        rw [List.eraseIdx_cons_succ, List.findIdx_cons, hp]
        simp only [cond_false]
        rw [ih m (by omega)]

/-- With no duplicated ids, erasing the first layer with a given id equals
filtering that id out. -/
theorem eraseP_id_eq_filter {x : String} :
    ∀ {l : List Layer}, (l.map Layer.id).Nodup →
      l.eraseP (fun a => a.id == x) = l.filter (fun a => a.id != x) := by
  intro l
  induction l with
  | nil => intro _; rfl
  | cons a t ih =>
    intro hnd
    rw [List.map_cons, List.nodup_cons] at hnd
    by_cases ha : a.id = x
    · rw [List.eraseP_cons_of_pos (by simp [ha])]
      rw [List.filter_cons_of_neg (by simp [ha])]
      rw [List.filter_eq_self.mpr]
      intro b hb
      have : b.id ≠ a.id := by
        intro hc
        exact hnd.1 (hc ▸ List.mem_map_of_mem Layer.id hb)
      simp [bne_iff_ne, ha ▸ this]
    · rw [List.eraseP_cons_of_neg (by simp [ha])]
      rw [List.filter_cons_of_pos (by simp [bne_iff_ne, ha])]
      rw [ih hnd.2]

/-- findIndex on a present id returns the (nonnegative) found index. -/
theorem findIdxInt_of_mem {l : List Layer} {x : String} (hx : x ∈ l.map Layer.id) :
    findIdxInt (fun a => a.id == x) l = ((l.findIdx (fun a => a.id == x) : Nat) : Int) := by
  obtain ⟨a, ha, rfl⟩ := List.mem_map.mp hx
  unfold findIdxInt
  rw [if_pos (List.findIdx_lt_length_of_exists ⟨a, ha, by simp⟩)]

/-- The layer sitting at a found index carries the searched id. -/
theorem findIdx_id_getElem {l : List Layer} {x : String} (hx : x ∈ l.map Layer.id) :
    ∃ hlt : l.findIdx (fun a => a.id == x) < l.length,
      (l.get ⟨l.findIdx (fun a => a.id == x), hlt⟩).id = x := by
  obtain ⟨a, ha, rfl⟩ := List.mem_map.mp hx
  have hlt : l.findIdx (fun b => b.id == a.id) < l.length :=
    List.findIdx_lt_length_of_exists ⟨a, ha, beq_self_eq_true a.id⟩
  refine ⟨hlt, ?_⟩
  have h2 := @List.findIdx_getElem _ (fun b => b.id == a.id) l hlt
  simpa [List.get_eq_getElem] using h2

/-- sortDescInt permutes its input. -/
theorem sortDescInt_perm (l : List Int) : (sortDescInt l).Perm l :=
  List.perm_insertionSort _ l

/-- sortDescInt sorts descending (weakly). -/
theorem sortDescInt_sorted (l : List Int) :
    List.Pairwise (fun a b : Int => b ≤ a) (sortDescInt l) := by
  haveI : IsTotal Int (fun a b : Int => b ≤ a) := ⟨fun a b => le_total b a⟩
  haveI : IsTrans Int (fun a b : Int => b ≤ a) := ⟨fun _ _ _ hab hbc => le_trans hbc hab⟩
  exact List.sorted_insertionSort _ l

/-- Erasing the image of a member commutes with mapping, up to
permutation. -/
theorem map_erase_perm {α β : Type} [DecidableEq α] [DecidableEq β]
    {x : α} {ids : List α} (f : α → β) (hx : x ∈ ids) :
    ((ids.map f).erase (f x)).Perm ((ids.erase x).map f) := by
  have h1 : ids.Perm (x :: ids.erase x) := List.perm_cons_erase hx
  have h2 : (ids.map f).Perm (f x :: (ids.erase x).map f) := by
    simpa using h1.map f
  have h3 := h2.erase (f x)
  rwa [List.erase_cons_head] at h3

/-- The removal loop of handleGroupSelection: splicing out the selected
layers' original indices in strictly descending order removes exactly the
layers whose id is selected, in place. -/
theorem removal_fold_eq_filter :
    ∀ (idxs : List Int) (l : List Layer) (ids : List String),
      (l.map Layer.id).Nodup → ids.Nodup →
      (∀ x ∈ ids, x ∈ l.map Layer.id) →
      idxs.Perm (ids.map (fun x => ((l.findIdx (fun a => a.id == x) : Nat) : Int))) →
      List.Pairwise (fun a b : Int => b < a) idxs →
      idxs.foldl (fun acc i => jsSpliceRemove1 acc i) l
        = l.filter (fun a => !(decide (a.id ∈ ids))) := by
  intro idxs
  induction idxs with
  | nil =>
    intro l ids hnd hidnd hsub hperm _
    have hmapnil : ids.map (fun x => ((l.findIdx (fun a => a.id == x) : Nat) : Int)) = [] :=
      hperm.symm.eq_nil
    have hids : ids = [] := by
      cases ids with
      | nil => rfl
      | cons a t => simp at hmapnil
    subst hids
    rw [List.foldl_nil, List.filter_eq_self.mpr]
    intro a _
    simp
  | cons i rest ih =>
    intro l ids hnd hidnd hsub hperm hpair
    have hiL : i ∈ ids.map (fun x => ((l.findIdx (fun a => a.id == x) : Nat) : Int)) :=
      hperm.mem_iff.mp (List.mem_cons_self i rest)
    obtain ⟨x, hxids, hfx⟩ := List.mem_map.mp hiL
    have hxmem : x ∈ l.map Layer.id := hsub x hxids
    obtain ⟨hlt, hgetid⟩ := findIdx_id_getElem hxmem
    have hstep : jsSpliceRemove1 l i = l.filter (fun a => a.id != x) := by
      rw [← hfx]
      rw [jsSpliceRemove1_toNat _ _ (by omega) (by omega)]
      rw [Int.toNat_natCast]
      rw [eraseIdx_findIdx_eq_eraseP]
      exact eraseP_id_eq_filter hnd
    have hbelow : ∀ j ∈ rest, j < i := (List.pairwise_cons.mp hpair).1
    have hrestperm : rest.Perm
        ((ids.erase x).map (fun y => ((l.findIdx (fun a => a.id == y) : Nat) : Int))) := by
      have h1 := hperm.erase i
      rw [List.erase_cons_head] at h1
      exact h1.trans (hfx ▸ map_erase_perm _ hxids)
    have hl' : l.eraseIdx (l.findIdx (fun a => a.id == x)) = l.filter (fun a => a.id != x) := by
      rw [eraseIdx_findIdx_eq_eraseP]
      exact eraseP_id_eq_filter hnd
    have hmapeq : (ids.erase x).map (fun y => ((l.findIdx (fun a => a.id == y) : Nat) : Int))
        = (ids.erase x).map
          (fun y => (((l.filter (fun a => a.id != x)).findIdx (fun a => a.id == y) : Nat) : Int)) := by
      apply List.map_congr_left
      intro y hy
      have hyin : ((l.findIdx (fun a => a.id == y) : Nat) : Int) ∈ rest :=
        hrestperm.mem_iff.mpr
          (List.mem_map.mpr ⟨y, hy, rfl⟩)
      have hylt : l.findIdx (fun a => a.id == y) < l.findIdx (fun a => a.id == x) := by
        have := hbelow _ hyin
        rw [← hfx] at this
        omega
      rw [← hl', findIdx_eraseIdx_of_lt _ l _ hylt]
    have hnd' : ((l.filter (fun a => a.id != x)).map Layer.id).Nodup :=
      ((l.filter_sublist).map Layer.id).nodup hnd
    have hidnd' : (ids.erase x).Nodup := hidnd.erase x
    have hsub' : ∀ y ∈ ids.erase x, y ∈ (l.filter (fun a => a.id != x)).map Layer.id := by
      intro y hy
      obtain ⟨hyne, hyids⟩ := (List.Nodup.mem_erase_iff hidnd).mp hy
      obtain ⟨b, hb, rfl⟩ := List.mem_map.mp (hsub y hyids)
      refine List.mem_map_of_mem Layer.id (List.mem_filter.mpr ⟨hb, ?_⟩)
      simpa [bne_iff_ne] using hyne
    have hrest' : rest.Perm ((ids.erase x).map
        (fun y => (((l.filter (fun a => a.id != x)).findIdx (fun a => a.id == y) : Nat) : Int))) := by
      rw [← hmapeq]
      exact hrestperm
    have hpair' := (List.pairwise_cons.mp hpair).2
    have hih := ih (l.filter (fun a => a.id != x)) (ids.erase x) hnd' hidnd' hsub' hrest' hpair'
    rw [List.foldl_cons, hstep, hih, List.filter_filter]
    apply List.filter_congr
    intro a ha
    by_cases hax : a.id = x
    · simp [hax, hxids]
    · have hiff : a.id ∈ ids.erase x ↔ a.id ∈ ids := List.mem_erase_of_ne hax
      simp [bne_iff_ne, hax, hiff]

/-- selectedIds.map(id => newLayers.find(...)) keeps one layer per present
id, in selection order, with the selected ids. -/
theorem filterMap_find_spec (layers : List Layer) :
    ∀ (ids : List String), (∀ x ∈ ids, x ∈ layers.map Layer.id) →
      ∃ cs : List Layer,
        ids.filterMap (fun x => layers.find? (fun l => l.id == x)) = cs ∧
        cs.map Layer.id = ids ∧ ∀ c ∈ cs, c ∈ layers := by
  intro ids
  induction ids with
  | nil =>
    intro _
    exact ⟨[], rfl, rfl, fun c hc => absurd hc (List.not_mem_nil c)⟩
  | cons x t ih =>
    intro hsub
    obtain ⟨a, ha, rfl⟩ := List.mem_map.mp (hsub x (List.mem_cons_self x t))
    have hsome : (layers.find? (fun l => l.id == a.id)).isSome :=
      List.find?_isSome.mpr ⟨a, ha, beq_self_eq_true a.id⟩
    obtain ⟨c, hc⟩ := Option.isSome_iff_exists.mp hsome
    have hcmem : c ∈ layers := List.mem_of_find?_eq_some hc
    have hcid : c.id = a.id := by simpa using List.find?_some hc
    obtain ⟨cs, hcs1, hcs2, hcs3⟩ := ih (fun y hy => hsub y (List.mem_cons_of_mem _ hy))
    refine ⟨c :: cs, ?_, ?_, ?_⟩
    · simp only [List.filterMap_cons, hc]
      rw [hcs1]
    · rw [List.map_cons, hcs2, hcid]
    · intro d hd
      rcases List.mem_cons.mp hd with rfl | hdt
      · exact hcmem
      · exact hcs3 d hdt

/-- The children-insertion loop of handleGroupSelection: splicing the
reparented selected layers at consecutive positions right after the new
group inserts them as one contiguous block. -/
theorem insert_children_fold (gid : String) (base : Nat) :
    ∀ (cs : List Layer) (j : Nat) (P suf : List Layer), base + 1 + j = P.length →
      (List.enumFrom j cs).foldl
        (fun acc p => jsSpliceInsert acc ((base : Int) + 1 + (p.1 : Int))
          { p.2 with parentId := some gid }) (P ++ suf)
        = P ++ cs.map (fun c => { c with parentId := some gid }) ++ suf := by
  intro cs
  induction cs with
  | nil =>
    intro j P suf _
    simp
  | cons c cs' ih =>
    intro j P suf hP
    rw [List.enumFrom_cons, List.foldl_cons]
    have hidx : ((base : Int) + 1 + (j : Int)) = ((P.length : Nat) : Int) := by
      omega
    have hstep : jsSpliceInsert (P ++ suf) ((base : Int) + 1 + (j : Int))
        { c with parentId := some gid } = (P ++ [{ c with parentId := some gid }]) ++ suf := by
      rw [hidx, jsSpliceInsert_toNat _ _ _ (by omega) (by rw [List.length_append]; omega)]
      rw [Int.toNat_natCast]
      rw [insertIdx_eq_take_cons_drop _ _ _ (by rw [List.length_append]; omega)]
      rw [List.take_left, List.drop_left]
      simp
    rw [hstep]
    rw [ih (j + 1) (P ++ [({ c with parentId := some gid } : Layer)]) suf
      (by rw [List.length_append]; simp; omega)]
    simp [List.append_assoc]

/-- find? skips a prefix on which the predicate fails. -/
theorem find?_append_of_notfound {α : Type} (p : α → Bool) :
    ∀ (A rest : List α), (∀ a ∈ A, p a = false) → (A ++ rest).find? p = rest.find? p := by
  intro A
  induction A with
  | nil => intro rest _; rfl
  | cons a t ih =>
    intro rest hA
    rw [List.cons_append,
      List.find?_cons_of_neg _ (by simp [hA a (List.mem_cons_self a t)])]
    exact ih rest (fun b hb => hA b (List.mem_cons_of_mem a hb))

/-- Removing the (absent) parentId from a top-level layer is the identity. -/
theorem layer_parentId_none_eta {c : Layer} (h : c.parentId = none) :
    { c with parentId := none } = c := by
  rw [← h]

/-- handleUngroupSelection on a store of the exact shape produced by
handleGroupSelection: the group dissolves, its children are released in
place with their parentId dropped, and the released children become the
selection. -/
theorem ungroup_of_shape (A B cs : List Layer) (gid : String)
    (hA : ∀ l ∈ A, l.id ≠ gid ∧ l.parentId ≠ some gid)
    (hB : ∀ l ∈ B, l.id ≠ gid ∧ l.parentId ≠ some gid)
    (hcs : ∀ c ∈ cs, c.id ≠ gid ∧ c.parentId = none) :
    handleUngroupSelection
        (A ++ (mkNewGroup gid :: (cs.map (fun c => { c with parentId := some gid }) ++ B))) [gid]
      = (A ++ (cs ++ B), cs.map Layer.id) := by
  have hfind : (A ++ (mkNewGroup gid ::
      (cs.map (fun c => { c with parentId := some gid }) ++ B))).find?
      (fun l => l.id == gid) = some (mkNewGroup gid) := by
    rw [find?_append_of_notfound _ A _
      (fun a ha => by simpa [beq_eq_false_iff_ne] using (hA a ha).1)]
    exact List.find?_cons_of_pos _ (by simp [mkNewGroup])
  simp only [handleUngroupSelection, List.filter_cons, List.filter_nil, hfind]
  have hkind : ((mkNewGroup gid).kind == LayerKind.group) = true := by
    simp [mkNewGroup]
  rw [hkind]
  rw [if_pos rfl, if_neg (by simp)]
  rw [List.foldl_cons, List.foldl_nil]
  simp only [ungroupStep]
  have hrel : ((A ++ (mkNewGroup gid ::
      (cs.map (fun c => { c with parentId := some gid }) ++ B))).filter
      (fun l => l.parentId == some gid)).map Layer.id = cs.map Layer.id := by
    rw [List.filter_append, List.filter_cons_of_neg (by simp [mkNewGroup]), List.filter_append]
    rw [List.filter_eq_nil_iff.mpr
      (fun a ha hc => (hA a ha).2 (by simpa using hc))]
    rw [List.filter_eq_nil_iff.mpr
      (fun a ha hc => (hB a ha).2 (by simpa using hc))]
    rw [List.filter_eq_self.mpr (fun a ha => by
      obtain ⟨c, _, rfl⟩ := List.mem_map.mp ha
      simp)]
    rw [List.nil_append, List.append_nil, List.map_map]
    rfl
  have hmapped : (A ++ (mkNewGroup gid ::
      (cs.map (fun c => { c with parentId := some gid }) ++ B))).map
      (fun l => if l.parentId = some gid then { l with parentId := none } else l)
      = A ++ (mkNewGroup gid :: (cs ++ B)) := by
    rw [List.map_append, List.map_cons, List.map_append, List.map_map]
    rw [List.map_congr_left (fun a ha => if_neg ((hA a ha).2))]
    rw [List.map_congr_left (fun a ha => if_neg ((hB a ha).2))]
    rw [if_neg (by simp [mkNewGroup])]
    have hcsmap : cs.map ((fun l => if l.parentId = some gid then
        { l with parentId := none } else l) ∘ (fun c => { c with parentId := some gid }))
        = cs := by
      refine (List.map_congr_left ?_).trans (List.map_id cs)
      intro c hc
      show (if ({ c with parentId := some gid } : Layer).parentId = some gid then
        { ({ c with parentId := some gid } : Layer) with parentId := none }
        else ({ c with parentId := some gid } : Layer)) = c
      rw [if_pos rfl]
      exact layer_parentId_none_eta (hcs c hc).2
    rw [hcsmap]
    simp
  rw [hrel, hmapped]
  have hfilterout : (A ++ (mkNewGroup gid :: (cs ++ B))).filter (fun l => l.id != gid)
      = A ++ (cs ++ B) := by
    rw [List.filter_append, List.filter_cons_of_neg (by simp [mkNewGroup]), List.filter_append]
    rw [List.filter_eq_self.mpr (fun a ha => by simp [bne_iff_ne, (hA a ha).1])]
    rw [List.filter_eq_self.mpr (fun a ha => by simp [bne_iff_ne, (hcs a ha).1])]
    rw [List.filter_eq_self.mpr (fun a ha => by simp [bne_iff_ne, (hB a ha).1])]
  rw [hfilterout, List.nil_append]

/-- Decomposition of handleGroupSelection on a nonempty selection of
present, pairwise-distinct ids over a store with no duplicated ids: the
result splits the de-selected remainder at the clamped top index, placing
the new group there followed by the reparented selected layers in
selection order; the new selection is exactly the new group. -/
theorem group_shape (layers : List Layer) (sel0 : String) (rest : List String) (gid : String)
    (hnd : (layers.map Layer.id).Nodup)
    (hselnd : (sel0 :: rest).Nodup)
    (hsub : ∀ x ∈ sel0 :: rest, x ∈ layers.map Layer.id) :
    ∃ (A B cs : List Layer),
      A ++ B = layers.filter (fun a => !(decide (a.id ∈ sel0 :: rest))) ∧
      cs.map Layer.id = sel0 :: rest ∧
      (∀ c ∈ cs, c ∈ layers) ∧
      handleGroupSelection layers (sel0 :: rest) gid
        = (A ++ (mkNewGroup gid :: (cs.map (fun c => { c with parentId := some gid }) ++ B)),
           [gid]) := by
  obtain ⟨cs, hcs1, hcs2, hcs3⟩ := filterMap_find_spec layers (sel0 :: rest) hsub
  have hmapidx : (sel0 :: rest).map (fun id => findIdxInt (fun l => l.id == id) layers)
      = (sel0 :: rest).map (fun x => ((layers.findIdx (fun a => a.id == x) : Nat) : Int)) :=
    List.map_congr_left (fun x hx => findIdxInt_of_mem (hsub x hx))
  have hfilterkeep : ((sel0 :: rest).map
        (fun x => ((layers.findIdx (fun a => a.id == x) : Nat) : Int))).filter (fun i => i != -1)
      = (sel0 :: rest).map (fun x => ((layers.findIdx (fun a => a.id == x) : Nat) : Int)) := by
    rw [List.filter_eq_self]
    intro i hi
    obtain ⟨x, _, rfl⟩ := List.mem_map.mp hi
    rw [bne_iff_ne]
    omega
  have hidxnd : ((sel0 :: rest).map
      (fun x => ((layers.findIdx (fun a => a.id == x) : Nat) : Int))).Nodup := by
    refine List.Nodup.map_on ?_ hselnd
    intro x hx y hy hxy
    obtain ⟨hltx, hgx⟩ := findIdx_id_getElem (hsub x hx)
    obtain ⟨hlty, hgy⟩ := findIdx_id_getElem (hsub y hy)
    have hnn : layers.findIdx (fun a => a.id == x) = layers.findIdx (fun a => a.id == y) := by
      exact_mod_cast hxy
    have h1 : layers[layers.findIdx (fun a => a.id == x)]?
        = layers[layers.findIdx (fun a => a.id == y)]? := by rw [hnn]
    rw [List.getElem?_eq_getElem hltx, List.getElem?_eq_getElem hlty] at h1
    have h2 := Option.some.inj h1
    rw [← hgx, ← hgy]
    simp only [List.get_eq_getElem]
    rw [h2]
  have hpairstrict : List.Pairwise (fun a b : Int => b < a)
      (sortDescInt ((sel0 :: rest).map
        (fun x => ((layers.findIdx (fun a => a.id == x) : Nat) : Int)))) := by
    have hs := sortDescInt_sorted ((sel0 :: rest).map
      (fun x => ((layers.findIdx (fun a => a.id == x) : Nat) : Int)))
    have hn : List.Pairwise (fun a b : Int => a ≠ b)
        (sortDescInt ((sel0 :: rest).map
          (fun x => ((layers.findIdx (fun a => a.id == x) : Nat) : Int)))) :=
      ((sortDescInt_perm _).symm.nodup hidxnd)
    exact (hs.and hn).imp (fun h => lt_of_le_of_ne h.1 (Ne.symm h.2))
  have hremove : (sortDescInt ((sel0 :: rest).map
        (fun x => ((layers.findIdx (fun a => a.id == x) : Nat) : Int)))).foldl
        (fun acc i => jsSpliceRemove1 acc i) layers
      = layers.filter (fun a => !(decide (a.id ∈ sel0 :: rest))) :=
    removal_fold_eq_filter _ layers (sel0 :: rest) hnd hselnd hsub (sortDescInt_perm _)
      hpairstrict
  have ht := findIdxInt_of_mem (hsub sel0 (List.mem_cons_self sel0 rest))
  refine ⟨(layers.filter (fun a => !(decide (a.id ∈ sel0 :: rest)))).take
      (min (layers.findIdx (fun a => a.id == sel0))
        (layers.filter (fun a => !(decide (a.id ∈ sel0 :: rest)))).length),
    (layers.filter (fun a => !(decide (a.id ∈ sel0 :: rest)))).drop
      (min (layers.findIdx (fun a => a.id == sel0))
        (layers.filter (fun a => !(decide (a.id ∈ sel0 :: rest)))).length),
    cs, List.take_append_drop _ _, hcs2, hcs3, ?_⟩
  simp only [handleGroupSelection]
  rw [hmapidx, hfilterkeep, hremove, ht]
  have hiff : (if ((layers.findIdx (fun a => a.id == sel0) : Nat) : Int)
        > (((layers.filter (fun a => !(decide (a.id ∈ sel0 :: rest)))).length : Nat) : Int)
      then (((layers.filter (fun a => !(decide (a.id ∈ sel0 :: rest)))).length : Nat) : Int)
      else ((layers.findIdx (fun a => a.id == sel0) : Nat) : Int))
      = ((min (layers.findIdx (fun a => a.id == sel0))
          (layers.filter (fun a => !(decide (a.id ∈ sel0 :: rest)))).length : Nat) : Int) := by
    split <;> omega
  rw [hiff]
  have hgins : jsSpliceInsert (layers.filter (fun a => !(decide (a.id ∈ sel0 :: rest))))
      ((min (layers.findIdx (fun a => a.id == sel0))
        (layers.filter (fun a => !(decide (a.id ∈ sel0 :: rest)))).length : Nat) : Int)
      (mkNewGroup gid)
      = ((layers.filter (fun a => !(decide (a.id ∈ sel0 :: rest)))).take
          (min (layers.findIdx (fun a => a.id == sel0))
            (layers.filter (fun a => !(decide (a.id ∈ sel0 :: rest)))).length)
        ++ [mkNewGroup gid])
        ++ (layers.filter (fun a => !(decide (a.id ∈ sel0 :: rest)))).drop
          (min (layers.findIdx (fun a => a.id == sel0))
            (layers.filter (fun a => !(decide (a.id ∈ sel0 :: rest)))).length) := by
    rw [jsSpliceInsert_toNat _ _ _ (by omega) (by omega)]
    rw [Int.toNat_natCast]
    rw [insertIdx_eq_take_cons_drop _ _ _ (by omega)]
    simp
  rw [hgins, hcs1, List.enum_eq_enumFrom]
  simp only [show (mkNewGroup gid).id = gid from rfl]
  rw [insert_children_fold gid
    (min (layers.findIdx (fun a => a.id == sel0))
      (layers.filter (fun a => !(decide (a.id ∈ sel0 :: rest)))).length)
    cs 0
    ((layers.filter (fun a => !(decide (a.id ∈ sel0 :: rest)))).take
      (min (layers.findIdx (fun a => a.id == sel0))
        (layers.filter (fun a => !(decide (a.id ∈ sel0 :: rest)))).length)
      ++ [mkNewGroup gid])
    ((layers.filter (fun a => !(decide (a.id ∈ sel0 :: rest)))).drop
      (min (layers.findIdx (fun a => a.id == sel0))
        (layers.filter (fun a => !(decide (a.id ∈ sel0 :: rest)))).length))
    (by rw [List.length_append, List.length_take]; simp)]
  simp [List.append_assoc]

/-- C6: grouping a nonempty selection of distinct, present, top-level
layer ids (with a fresh group id) and immediately ungrouping with the
resulting selection yields a permutation of the original store — the
original layers are all back, top-level, with no trace of the group layer
— and selects exactly the released children, i.e. the originally selected
ids in order. -/
theorem group_ungroup_roundTrip (layers : List Layer) (selectedIds : List String) (gid : String)
    (hnd : (layers.map Layer.id).Nodup)
    (hne : selectedIds ≠ [])
    (hselnd : selectedIds.Nodup)
    (hsub : ∀ x ∈ selectedIds, x ∈ layers.map Layer.id)
    (htop : ∀ l ∈ layers, l.id ∈ selectedIds → l.parentId = none)
    (hfresh1 : gid ∉ layers.map Layer.id)
    (hfresh2 : ∀ l ∈ layers, l.parentId ≠ some gid) :
    (handleUngroupSelection (handleGroupSelection layers selectedIds gid).1
        (handleGroupSelection layers selectedIds gid).2).1.Perm layers ∧
    gid ∉ (handleUngroupSelection (handleGroupSelection layers selectedIds gid).1
        (handleGroupSelection layers selectedIds gid).2).1.map Layer.id ∧
    (handleUngroupSelection (handleGroupSelection layers selectedIds gid).1
        (handleGroupSelection layers selectedIds gid).2).2 = selectedIds := by
  obtain ⟨sel0, rest, rfl⟩ : ∃ a t, selectedIds = a :: t := by
    cases selectedIds with
    | nil => exact absurd rfl hne
    | cons a t => exact ⟨a, t, rfl⟩
  obtain ⟨A, B, cs, hAB, hcsid, hcsmem, hg⟩ := group_shape layers sel0 rest gid hnd hselnd hsub
  rw [hg]
  dsimp only
  have hlayersAB : ∀ l, l ∈ A ++ B → l ∈ layers := by
    intro l hl
    rw [hAB] at hl
    exact (List.mem_filter.mp hl).1
  have hA : ∀ l ∈ A, l.id ≠ gid ∧ l.parentId ≠ some gid := by
    intro l hl
    have hmem := hlayersAB l (List.mem_append_left B hl)
    exact ⟨fun hc => hfresh1 (hc ▸ List.mem_map_of_mem Layer.id hmem), hfresh2 l hmem⟩
  have hB : ∀ l ∈ B, l.id ≠ gid ∧ l.parentId ≠ some gid := by
    intro l hl
    have hmem := hlayersAB l (List.mem_append_right A hl)
    exact ⟨fun hc => hfresh1 (hc ▸ List.mem_map_of_mem Layer.id hmem), hfresh2 l hmem⟩
  have hcsprop : ∀ c ∈ cs, c.id ≠ gid ∧ c.parentId = none := by
    intro c hc
    have hmem := hcsmem c hc
    have hcid : c.id ∈ sel0 :: rest := by
      rw [← hcsid]
      exact List.mem_map_of_mem Layer.id hc
    exact ⟨fun h => hfresh1 (h ▸ List.mem_map_of_mem Layer.id hmem), htop c hmem hcid⟩
  rw [ungroup_of_shape A B cs gid hA hB hcsprop]
  dsimp only
  have hl_nodup : layers.Nodup := List.Nodup.of_map Layer.id hnd
  have hcs_nodup : cs.Nodup := by
    have hmap : (cs.map Layer.id).Nodup := by
      rw [hcsid]
      exact hselnd
    exact List.Nodup.of_map Layer.id hmap
  have hfil_nodup : (layers.filter (fun a => decide (a.id ∈ sel0 :: rest))).Nodup :=
    (layers.filter_sublist).nodup hl_nodup
  have h2 : cs.Perm (layers.filter (fun a => decide (a.id ∈ sel0 :: rest))) := by
    rw [List.perm_ext_iff_of_nodup hcs_nodup hfil_nodup]
    intro c
    rw [List.mem_filter]
    constructor
    · intro hc
      refine ⟨hcsmem c hc, ?_⟩
      rw [decide_eq_true_eq, ← hcsid]
      exact List.mem_map_of_mem Layer.id hc
    · rintro ⟨hcl, hcid2⟩
      rw [decide_eq_true_eq, ← hcsid] at hcid2
      obtain ⟨c', hc', hc'id⟩ := List.mem_map.mp hcid2
      have heq := List.inj_on_of_nodup_map hnd (hcsmem c' hc') hcl hc'id
      exact heq ▸ hc'
  have h1 : (A ++ (cs ++ B)).Perm (cs ++ (A ++ B)) := by
    have e1 : A ++ (cs ++ B) = (A ++ cs) ++ B := (List.append_assoc A cs B).symm
    have e2 : (cs ++ A) ++ B = cs ++ (A ++ B) := List.append_assoc cs A B
    rw [e1, ← e2]
    exact List.perm_append_comm.append_right B
  have h3 : (cs ++ (A ++ B)).Perm layers := by
    rw [hAB]
    exact (h2.append_right _).trans (List.filter_append_perm _ layers)
  have hperm := h1.trans h3
  refine ⟨hperm, ?_, hcsid⟩
  intro hmemid
  exact hfresh1 ((hperm.map Layer.id).mem_iff.mp hmemid)

/-- C6 witness: two top-level images, both selected, grouped under the
fresh id g1 and immediately ungrouped. -/
theorem group_ungroup_roundTrip_witness :
    (handleUngroupSelection (handleGroupSelection [mkImage "a", mkImage "b"] ["a", "b"] "g1").1
        (handleGroupSelection [mkImage "a", mkImage "b"] ["a", "b"] "g1").2).1.Perm
      [mkImage "a", mkImage "b"] ∧
    "g1" ∉ (handleUngroupSelection (handleGroupSelection [mkImage "a", mkImage "b"] ["a", "b"] "g1").1
        (handleGroupSelection [mkImage "a", mkImage "b"] ["a", "b"] "g1").2).1.map Layer.id ∧
    (handleUngroupSelection (handleGroupSelection [mkImage "a", mkImage "b"] ["a", "b"] "g1").1
        (handleGroupSelection [mkImage "a", mkImage "b"] ["a", "b"] "g1").2).2 = ["a", "b"] :=
  group_ungroup_roundTrip [mkImage "a", mkImage "b"] ["a", "b"] "g1" (by decide) (by decide)
    (by decide) (by decide) (by decide) (by decide) (by decide)
